import Mathlib

/-!
Verification development for the sourcetools R tokenizer.

The definitions below are a shallow embedding of the C++ sources:
  - `src/unnamed/part_000`  (Tokenizer.h: class Tokenizer, function tokenize)
  - `src/inst/include/sourcetools/tokenization/Token.h`
    (class Token, parseOctal, parseHex, parseUnicode, stringValue)

The byte buffer is modelled as a `List Char` (each element standing for one
byte; all inputs of interest are ASCII).  The external `TextCursor`
collaborator is modelled from the spec: `peek(k)` returns the byte at
`offset + k`, or the sentinel byte `'\x00'` past end-of-input (the code
itself relies on this sentinel, e.g. the `peek != '\0'` test in
`consumeHexadecimalNumber`); `advance(n)` adds to the offset.  Reading a
byte at an index is therefore `List.getD _ _ '\x00'`.
-/

namespace Sourcetools

/-- Byte read with the cursor's end-of-input sentinel `'\x00'`
(spec: `peek(offset) -> byte-or-sentinel`). -/
def getC (buf : List Char) (i : Nat) : Char :=
  buf.getD i '\x00'

/-- Head byte of a suffix, with the same sentinel. -/
def headC (rest : List Char) : Char :=
  rest.headD '\x00'

/-- `std::isdigit` restricted to ASCII, as the scanner uses it. -/
def isDigitB (c : Char) : Bool :=
  '0' ≤ c && c ≤ '9'

/-- `std::isalpha` restricted to ASCII. -/
def isAlphaB (c : Char) : Bool :=
  ('a' ≤ c && c ≤ 'z') || ('A' ≤ c && c ≤ 'Z')

/-- `std::isalnum` restricted to ASCII. -/
def isAlnumB (c : Char) : Bool :=
  isAlphaB c || isDigitB c

/-- `std::isspace` in the C locale. -/
def isSpaceB (c : Char) : Bool :=
  c = ' ' || c = '\t' || c = '\n' || c = '\x0b' || c = '\x0c' || c = '\x0d'

/-- `Tokenizer::isHexDigit` (Tokenizer.h lines 115-121). -/
def isHexDigitB (c : Char) : Bool :=
  ('0' ≤ c && c ≤ '9') || ('A' ≤ c && c ≤ 'F') || ('a' ≤ c && c ≤ 'f')

/-- Octal-digit test, matching the comparisons `'0' <= ch && ch <= '7'`
used by `parseOctal` (Token.h); byte comparisons are numeric, so the
test is stated on the byte value (`'0'` is 48, `'7'` is 55). -/
def isOctDigitB (c : Char) : Bool :=
  48 ≤ c.toNat && c.toNat ≤ 55

/-- `detail::hexValue` (Token.h lines 200-210): value of a hex digit,
`0` for any other byte. -/
def hexValue (c : Char) : Nat :=
  if '0' ≤ c ∧ c ≤ '9' then c.toNat - '0'.toNat
  else if 'a' ≤ c ∧ c ≤ 'f' then c.toNat - 'a'.toNat + 10
  else if 'A' ≤ c ∧ c ≤ 'F' then c.toNat - 'A'.toNat + 10
  else 0

/-- Modelled from the spec: the externally supplied symbol classifier
`isValidForStartOfRSymbol` (`isValidSymbolStart(byte) -> bool`); in the
R sources this accepts letters, `.`, `_` and non-ASCII lead bytes. -/
def validSymbolStart (c : Char) : Bool :=
  isAlphaB c || c = '.' || c = '_' || 128 ≤ c.toNat

/-- Modelled from the spec: the externally supplied symbol classifier
`isValidForRSymbol` (`isValidSymbolContinuation(byte) -> bool`). -/
def validSymbolCont (c : Char) : Bool :=
  isAlnumB c || c = '.' || c = '_' || 128 ≤ c.toNat

/-- Token kinds (`TokenType`), one constructor per kind used by the
tokenizer; the C++ bitmask packing is replaced by the closed enumeration
the spec describes in its design notes. -/
inductive TokenType where
  | INVALID | END | EMPTY | MISSING | SEMI | COMMA
  | SYMBOL | COMMENT | WHITESPACE | STRING | NUMBER | ERR
  | KEYWORD
  | LBRACE | RBRACE | LPAREN | RPAREN
  | LBRACKET | RBRACKET | LDBRACKET | RDBRACKET
  | OPERATOR_ASSIGN_LEFT | OPERATOR_LESS_OR_EQUAL | OPERATOR_ASSIGN_LEFT_PARENT
  | OPERATOR_LESS | OPERATOR_GREATER_OR_EQUAL | OPERATOR_GREATER
  | OPERATOR_EQUAL | OPERATOR_ASSIGN_LEFT_EQUALS
  | OPERATOR_OR_SCALAR | OPERATOR_OR_VECTOR
  | OPERATOR_AND_SCALAR | OPERATOR_AND_VECTOR
  | OPERATOR_EXPONENTATION_STARS | OPERATOR_MULTIPLY
  | OPERATOR_NAMESPACE_ALL | OPERATOR_NAMESPACE_EXPORTS
  | OPERATOR_ASSIGN_LEFT_COLON | OPERATOR_SEQUENCE
  | OPERATOR_NOT_EQUAL | OPERATOR_NEGATION
  | OPERATOR_ASSIGN_RIGHT_PARENT | OPERATOR_ASSIGN_RIGHT | OPERATOR_MINUS
  | OPERATOR_PLUS | OPERATOR_FORMULA | OPERATOR_HELP | OPERATOR_DIVIDE
  | OPERATOR_AT | OPERATOR_DOLLAR | OPERATOR_HAT | OPERATOR_USER
deriving DecidableEq, Repr

/-- A token: a borrowed span `[begin_, end_)` of byte offsets into the
source buffer plus its kind (class `Token`; the row/column `Position` is
irrelevant to every claim and omitted).  `size = end_ - begin_`. -/
structure Token where
  begin_ : Nat
  end_   : Nat
  type   : TokenType
deriving DecidableEq, Repr

/-- `Token::size()`. -/
def Token.size (t : Token) : Nat := t.end_ - t.begin_

/-- Modelled from the spec: the external keyword table
(`classifyKeyword(text) -> TokenKind`, exact-match lookup, default
`SYMBOL`); `tokens::symbolType` is declared in a header not present
under src/.  The individual keyword kinds are collapsed into `KEYWORD`,
which no claim distinguishes. -/
def classifyKeyword (text : List Char) : TokenType :=
  if text ∈ ["if", "else", "repeat", "while", "function", "for", "in",
             "next", "break", "TRUE", "FALSE", "NULL", "Inf", "NaN", "NA",
             "NA_integer_", "NA_real_", "NA_character_"].map String.toList
  then TokenType.KEYWORD else TokenType.SYMBOL

/-- The loop of `Tokenizer::consumeUntil` (Tokenizer.h lines 36-55) on the
suffix of the buffer starting at the cursor (whose head is the opening
delimiter).  Each step advances the lookahead cursor one byte and counts
it; with `esc` set, a backslash seen after advancing skips one more byte
unconditionally; otherwise the byte seen after advancing is compared with
the delimiter `ch`.  Returns `(success, distance)` where `distance` is the
number of advances performed. -/
def consumeUntilLoop (ch : Char) (esc : Bool) : List Char → Bool × Nat
  | [] => (false, 0)
  | _ :: rest =>
    if esc && headC rest = '\\' then
      match rest with
      | [] => (false, 1)
      | _ :: rest2 =>
        let r := consumeUntilLoop ch esc rest2
        (r.1, r.2 + 2)
    else if headC rest = ch then (true, 1)
    else
      let r := consumeUntilLoop ch esc rest
      (r.1, r.2 + 1)

/-- Length of the maximal `std::isdigit` run at the head of a suffix
(the `while (std::isdigit(cursor_.peek(distance))) ++distance;` loops of
`consumeNumber`). -/
def countDigits : List Char → Nat
  | [] => 0
  | c :: rest => if isDigitB c then countDigits rest + 1 else 0

/-- Length of the maximal `std::isspace` run at the head of a suffix
(the loop of `Tokenizer::consumeWhitespace`, lines 89-96). -/
def countSpace : List Char → Nat
  | [] => 0
  | c :: rest => if isSpaceB c then countSpace rest + 1 else 0

/-- Length of the maximal symbol-continuation run at the head of a suffix
(the loop of `Tokenizer::consumeSymbol`, lines 227-238). -/
def countSymbolCont : List Char → Nat
  | [] => 0
  | c :: rest => if validSymbolCont c then countSymbolCont rest + 1 else 0

/-- `Tokenizer::isStartOfNumber` (lines 100-108) at the head of a suffix. -/
def isStartOfNumberB (rest : List Char) : Bool :=
  if isDigitB (headC rest) then true
  else if headC rest = '.' then isDigitB (getC rest 1)
  else false

/-- Outcome of `Tokenizer::consumeHexadecimalNumber` (lines 123-169):
`notHex` when the `0x`/`0X` prefix is absent (nothing consumed, `false`
returned); `errTwo` when the prefix is present but no hex digit follows
(the code consumes the two prefix bytes as an `ERR` token yet still
returns `false`, so `consumeNumber` keeps scanning from the new cursor);
`tok success len` when the prefix and at least one hex digit are present
(`len` bytes consumed as `NUMBER` if `success`, else `ERR`). -/
inductive HexScan where
  | notHex
  | errTwo
  | tok (success : Bool) (len : Nat)
deriving DecidableEq, Repr

/-- The alphanumeric-consuming loop of `consumeHexadecimalNumber`
(lines 148-165) over the suffix after the `0x` prefix: consume while
`isalnum` and not the sentinel; an `i` or `L` is consumed and ends the
run; a consumed non-hex-digit clears the success flag. -/
def hexNumLoop : List Char → Bool × Nat
  | [] => (true, 0)
  | c :: rest =>
    if isAlnumB c && c ≠ '\x00' then
      if c = 'i' || c = 'L' then (true, 1)
      else
        let r := hexNumLoop rest
        (isHexDigitB c && r.1, r.2 + 1)
    else (true, 0)

/-- `Tokenizer::consumeHexadecimalNumber` on the suffix at the cursor. -/
def hexScan (rest : List Char) : HexScan :=
  if getC rest 0 ≠ '0' then .notHex
  else if ¬ (getC rest 1 = 'x' ∨ getC rest 1 = 'X') then .notHex
  else if ¬ isHexDigitB (getC rest 2) then .errTwo
  else .tok (hexNumLoop (rest.drop 2)).1 ((hexNumLoop (rest.drop 2)).2 + 2)

/-- Digits then the optional `.`-plus-digits step of
`Tokenizer::consumeNumber` (lines 184-194): the distance after
consuming leading digits and, when a `.` follows, the dot and the
digits after it. -/
def numDot (rest : List Char) : Nat :=
  let d0 := countDigits rest
  if getC rest d0 = '.' then d0 + 1 + countDigits (rest.drop (d0 + 1)) else d0

/-- The trailing-`L` step of `consumeNumber` (lines 221-222). -/
def numL (rest : List Char) (d : Nat) : Nat :=
  if getC rest d = 'L' then d + 1 else d

/-- The exponent step of `consumeNumber` (lines 197-218), entered when
an `e`/`E` sits at distance `d1`: consume it, an optional sign, digits
(success requires at least one), then an optional `.`-plus-digits run
which forces failure; finally the trailing-`L` step. -/
def numExp (rest : List Char) (d1 : Nat) : Bool × Nat :=
  let d2 := if getC rest (d1 + 1) = '-' ∨ getC rest (d1 + 1) = '+' then d1 + 2 else d1 + 1
  let succ := isDigitB (getC rest d2)
  let d3 := d2 + countDigits (rest.drop d2)
  if getC rest d3 = '.' then (false, numL rest (d3 + 1 + countDigits (rest.drop (d3 + 1))))
  else (succ, numL rest d3)

/-- The non-hexadecimal body of `Tokenizer::consumeNumber` (lines
183-224) on the suffix at the cursor.  Returns `(success, distance)`;
the lexeme is always consumed in full, only the flag differs. -/
def numTail (rest : List Char) : Bool × Nat :=
  let d1 := numDot rest
  if getC rest d1 = 'e' ∨ getC rest d1 = 'E' then numExp rest d1
  else (true, numL rest d1)

/-- Engine state: the cursor (source buffer plus byte offset) and the
bracket-disambiguation stack `tokenStack_` (top at the list head). -/
structure TState where
  buf : List Char
  offset : Nat
  stack : List TokenType
deriving DecidableEq, Repr

/-- The outcome of the character dispatch at the top of
`Tokenizer::tokenize` (lines 255-410): which branch of the if/else-if
chain the lookahead character selects.  `other` stands for reaching the
number/symbol/fallback tail of the chain (lines 412-422). -/
inductive Dispatch where
  | lbrace | rbrace | lparen | rparen | lbracket | rbracket
  | ltC | gtC | eqC | pipeC | ampC | starC | colonC | bangC | minusC
  | plusC | tildeC | questionC | slashC | atC | dollarC | hatC
  | percentC | commaC | semiC | spaceC | squoteC | dquoteC | backtickC | hashC
  | other
deriving DecidableEq, Repr

/-- The character tests of `Tokenizer::tokenize`'s dispatch chain, in
the exact order the code performs them; all are conditions on the one
lookahead character `ch = cursor_.peek()`. -/
def dispatchOf (c : Char) : Dispatch :=
  if c = '\x7b' then .lbrace
  else if c = '\x7d' then .rbrace
  else if c = '(' then .lparen
  else if c = ')' then .rparen
  else if c = '[' then .lbracket
  else if c = ']' then .rbracket
  else if c = '<' then .ltC
  else if c = '>' then .gtC
  else if c = '=' then .eqC
  else if c = '|' then .pipeC
  else if c = '&' then .ampC
  else if c = '*' then .starC
  else if c = ':' then .colonC
  else if c = '!' then .bangC
  else if c = '-' then .minusC
  else if c = '+' then .plusC
  else if c = '~' then .tildeC
  else if c = '?' then .questionC
  else if c = '/' then .slashC
  else if c = '@' then .atC
  else if c = '$' then .dollarC
  else if c = '^' then .hatC
  else if c = '%' then .percentC
  else if c = ',' then .commaC
  else if c = ';' then .semiC
  else if isSpaceB c then .spaceC
  else if c = '\'' then .squoteC
  else if c = '"' then .dquoteC
  else if c = '`' then .backtickC
  else if c = '#' then .hashC
  else .other

/-- One dispatch of `Tokenizer::tokenize` (lines 255-422) once the
cursor is known not to be at end-of-input, operating on the suffix
`rest` of the buffer at the cursor and on the bracket stack.  Returns
`(skip, type, len, stack')`: the call writes the token
`[offset + skip, offset + skip + len)` of kind `type`, leaves the cursor
at `offset + skip + len`, and replaces the stack by `stack'`.

`skip` is `0` on every path except the `consumeHexadecimalNumber`
`errTwo` slip, where the two prefix bytes are consumed by an `ERR` token
that the continuing `consumeNumber` immediately overwrites, so the token
finally stored begins two bytes past the dispatch position. -/
def scan (rest : List Char) (stack : List TokenType) :
    Nat × TokenType × Nat × List TokenType :=
  match dispatchOf (headC rest) with
  | .lbrace => (0, .LBRACE, 1, stack)
  | .rbrace => (0, .RBRACE, 1, stack)
  | .lparen => (0, .LPAREN, 1, stack)
  | .rparen => (0, .RPAREN, 1, stack)
  | .lbracket =>
    if getC rest 1 = '[' then (0, .LDBRACKET, 2, .LDBRACKET :: stack)
    else (0, .LBRACKET, 1, .LBRACKET :: stack)
  | .rbracket =>
    match stack with
    | [] => (0, .ERR, 1, [])
    | top :: stack' =>
      if top = .LDBRACKET then
        if getC rest 1 = ']' then (0, .RDBRACKET, 2, stack')
        else (0, .ERR, 1, stack')
      else (0, .RBRACKET, 1, stack')
  | .ltC =>
    if getC rest 1 = '-' then (0, .OPERATOR_ASSIGN_LEFT, 2, stack)
    else if getC rest 1 = '=' then (0, .OPERATOR_LESS_OR_EQUAL, 2, stack)
    else if getC rest 1 = '<' ∧ getC rest 2 = '-' then
      (0, .OPERATOR_ASSIGN_LEFT_PARENT, 3, stack)
    else (0, .OPERATOR_LESS, 1, stack)
  | .gtC =>
    if getC rest 1 = '=' then (0, .OPERATOR_GREATER_OR_EQUAL, 2, stack)
    else (0, .OPERATOR_GREATER, 1, stack)
  | .eqC =>
    if getC rest 1 = '=' then (0, .OPERATOR_EQUAL, 2, stack)
    else (0, .OPERATOR_ASSIGN_LEFT_EQUALS, 1, stack)
  | .pipeC =>
    if getC rest 1 = '|' then (0, .OPERATOR_OR_SCALAR, 2, stack)
    else (0, .OPERATOR_OR_VECTOR, 1, stack)
  | .ampC =>
    if getC rest 1 = '&' then (0, .OPERATOR_AND_SCALAR, 2, stack)
    else (0, .OPERATOR_AND_VECTOR, 1, stack)
  | .starC =>
    if getC rest 1 = '*' then (0, .OPERATOR_EXPONENTATION_STARS, 2, stack)
    else (0, .OPERATOR_MULTIPLY, 1, stack)
  | .colonC =>
    if getC rest 1 = ':' then
      if getC rest 2 = ':' then (0, .OPERATOR_NAMESPACE_ALL, 3, stack)
      else (0, .OPERATOR_NAMESPACE_EXPORTS, 2, stack)
    else if getC rest 1 = '=' then (0, .OPERATOR_ASSIGN_LEFT_COLON, 2, stack)
    else (0, .OPERATOR_SEQUENCE, 1, stack)
  | .bangC =>
    if getC rest 1 = '=' then (0, .OPERATOR_NOT_EQUAL, 2, stack)
    else (0, .OPERATOR_NEGATION, 1, stack)
  | .minusC =>
    if getC rest 1 = '>' then
      if getC rest 2 = '>' then (0, .OPERATOR_ASSIGN_RIGHT_PARENT, 3, stack)
      else (0, .OPERATOR_ASSIGN_RIGHT, 2, stack)
    else (0, .OPERATOR_MINUS, 1, stack)
  | .plusC => (0, .OPERATOR_PLUS, 1, stack)
  | .tildeC => (0, .OPERATOR_FORMULA, 1, stack)
  | .questionC => (0, .OPERATOR_HELP, 1, stack)
  | .slashC => (0, .OPERATOR_DIVIDE, 1, stack)
  | .atC => (0, .OPERATOR_AT, 1, stack)
  | .dollarC => (0, .OPERATOR_DOLLAR, 1, stack)
  | .hatC => (0, .OPERATOR_HAT, 1, stack)
  | .percentC =>
    (0, if (consumeUntilLoop '%' false rest).1 then .OPERATOR_USER else .ERR,
     (consumeUntilLoop '%' false rest).2 + 1, stack)
  | .commaC => (0, .COMMA, 1, stack)
  | .semiC => (0, .SEMI, 1, stack)
  | .spaceC => (0, .WHITESPACE, countSpace (rest.drop 1) + 1, stack)
  | .squoteC =>
    (0, if (consumeUntilLoop '\'' true rest).1 then .STRING else .ERR,
     (consumeUntilLoop '\'' true rest).2 + 1, stack)
  | .dquoteC =>
    (0, if (consumeUntilLoop '"' true rest).1 then .STRING else .ERR,
     (consumeUntilLoop '"' true rest).2 + 1, stack)
  | .backtickC =>
    (0, if (consumeUntilLoop '`' true rest).1 then .SYMBOL else .ERR,
     (consumeUntilLoop '`' true rest).2 + 1, stack)
  | .hashC =>
    (0, if (consumeUntilLoop '\n' false rest).1 then .COMMENT else .ERR,
     (consumeUntilLoop '\n' false rest).2 + 1, stack)
  | .other =>
    if isStartOfNumberB rest then
      match hexScan rest with
      | .notHex => (0, if (numTail rest).1 then .NUMBER else .ERR, (numTail rest).2, stack)
      | .errTwo =>
        (2, if (numTail (rest.drop 2)).1 then .NUMBER else .ERR,
         (numTail (rest.drop 2)).2, stack)
      | .tok success len => (0, if success then .NUMBER else .ERR, len, stack)
    else if validSymbolStart (headC rest) then
      (0, classifyKeyword (rest.take (countSymbolCont (rest.drop 1) + 1)),
       countSymbolCont (rest.drop 1) + 1, stack)
    else (0, .ERR, 1, stack)

/-- `Tokenizer::tokenize(Token*)` (lines 247-425): at end-of-input the
`END` token (null span, modelled `[0,0)`) is written and `false`
returned; otherwise one token is scanned and `true` returned.  The
result triple mirrors `(written token, engine state after, return
value)`. -/
def tokenize (st : TState) : Token × TState × Bool :=
  if st.buf.length ≤ st.offset then (⟨0, 0, .END⟩, st, false)
  else
    let s := scan (st.buf.drop st.offset) st.stack
    (⟨st.offset + s.1, st.offset + s.1 + s.2.2.1, s.2.1⟩,
     ⟨st.buf, st.offset + s.1 + s.2.2.1, s.2.2.2⟩, true)

/-- The loop of the tokenize-all driver `sourcetools::tokenize`
(lines 448-461), with an explicit fuel argument bounding the number of
iterations; `tokenizeLoop_fuel_stable` below shows any fuel of at least
`buf.length + 1 - offset` computes the full sequence, so the fuel used
by `tokenizeAll` is no restriction. -/
def tokenizeLoop : Nat → TState → List Token
  | 0, _ => []
  | fuel + 1, st =>
    if (tokenize st).2.2 then (tokenize st).1 :: tokenizeLoop fuel (tokenize st).2.1
    else []

/-- `sourcetools::tokenize(const char*, std::size_t)`: the tokenize-all
driver, collecting every token until the engine reports no more input
(the empty buffer short-circuits to the empty sequence). -/
def tokenizeAll (buf : List Char) : List Token :=
  if buf.length = 0 then [] else tokenizeLoop (buf.length + 1) ⟨buf, 0, []⟩

/-- The lookahead loop of `Tokenizer::peek` (lines 427-439), run on the
clone: `result` starts as `Token(END)` and each iteration calls
`tokenize` on the clone, which always writes `result` (also on the final
call that returns `false` and writes the `END` token). -/
def peekLoop : Nat → TState → Token → Token
  | 0, _, result => result
  | i + 1, clone, _ =>
    match tokenize clone with
    | (t, clone', true) => peekLoop i clone' t
    | (t, _, false) => t

/-- `Tokenizer::peek(lookahead)`: the entire engine state (cursor and
bracket stack) is cloned and the lookahead loop runs on the clone only;
the pair returned is `(result, state of the engine after the call)` —
the second component is the untouched original state, which is the
frame property the method's by-value clone realizes. -/
def peek (st : TState) (lookahead : Nat) : Token × TState :=
  let clone := st
  (peekLoop lookahead clone ⟨0, 0, .END⟩, st)

/-- The single-character C-style escape table of `stringValue`
(Token.h lines 356-367), applied to the byte after the backslash. -/
def escChar (c : Char) : Char :=
  if c = 'a' then '\x07'
  else if c = 'b' then '\x08'
  else if c = 'f' then '\x0c'
  else if c = 'n' then '\n'
  else if c = 'r' then '\x0d'
  else if c = 't' then '\t'
  else if c = 'v' then '\x0b'
  else if c = '\\' then '\\'
  else c

/-- `detail::parseOctal` (Token.h lines 213-240) at byte index `it` of
the buffer: on success returns `(new index, decoded byte)`.  After the
backslash and the octal-digit lookahead are checked, the bounded loop
consumes up to three octal digits; `result` is an `unsigned char`, so
each `result = 8 * result + ch - '0'` step truncates modulo 256. -/
def parseOctal (buf : List Char) (it : Nat) : Option (Nat × Char) :=
  if getC buf it ≠ '\\' then none
  else if ¬ isOctDigitB (getC buf (it + 1)) then none
  else
    let i0 := it + 1
    let c1 := getC buf i0
    if ¬ isOctDigitB c1 then some (i0, '\x00')
    else
      let r1 := (8 * 0 + (c1.toNat - '0'.toNat)) % 256
      let c2 := getC buf (i0 + 1)
      if ¬ isOctDigitB c2 then some (i0 + 1, Char.ofNat r1)
      else
        let r2 := (8 * r1 + (c2.toNat - '0'.toNat)) % 256
        let c3 := getC buf (i0 + 2)
        if ¬ isOctDigitB c3 then some (i0 + 2, Char.ofNat r2)
        else some (i0 + 3, Char.ofNat ((8 * r2 + (c3.toNat - '0'.toNat)) % 256))

/-- `detail::parseHex` (Token.h lines 243-269) at byte index `it`: after
checking `\`, `x` and one hex digit, the code advances to the first hex
digit and loops over at most two positions, but the loop computes
`result = hexValue(*it)` and breaks when `result == 0` — so a `'0'`
digit (hex value zero) ends parsing exactly like a non-hex byte, before
being consumed.  `value` is an `unsigned char` (modulo 256). -/
def parseHex (buf : List Char) (it : Nat) : Option (Nat × Char) :=
  if getC buf it ≠ '\\' then none
  else if getC buf (it + 1) ≠ 'x' then none
  else if ¬ isHexDigitB (getC buf (it + 2)) then none
  else
    let i0 := it + 2
    let h1 := hexValue (getC buf i0)
    if h1 = 0 then some (i0, '\x00')
    else
      let v1 := (16 * 0 + h1) % 256
      let h2 := hexValue (getC buf (i0 + 1))
      if h2 = 0 then some (i0 + 1, Char.ofNat v1)
      else some (i0 + 2, Char.ofNat ((16 * v1 + h2) % 256))

/-- The hex-digit loop of `detail::parseUnicode` (Token.h lines
299-309): consume at most `remaining` hex digits, stopping at the first
non-hex byte. -/
def uniLoop (buf : List Char) (pos : Nat) (value : Nat) : Nat → Nat × Nat
  | 0 => (pos, value)
  | r + 1 =>
    if isHexDigitB (getC buf pos) then
      uniLoop buf (pos + 1) (16 * value + hexValue (getC buf pos)) r
    else (pos, value)

/-- Modelled from the spec: `::wcrtomb` encodes the decoded code point
"into the output in the host's multi-byte encoding", modelled as UTF-8;
it fails (returns -1) on values no encoding exists for. -/
def utf8Encode (v : Nat) : Option (List Char) :=
  if v < 0x80 then some [Char.ofNat v]
  else if v < 0x800 then
    some [Char.ofNat (0xC0 + v / 64), Char.ofNat (0x80 + v % 64)]
  else if v < 0x10000 then
    if 0xD800 ≤ v ∧ v < 0xE000 then none
    else some [Char.ofNat (0xE0 + v / 4096), Char.ofNat (0x80 + v / 64 % 64),
               Char.ofNat (0x80 + v % 64)]
  else if v < 0x110000 then
    some [Char.ofNat (0xF0 + v / 262144), Char.ofNat (0x80 + v / 4096 % 64),
          Char.ofNat (0x80 + v / 64 % 64), Char.ofNat (0x80 + v % 64)]
  else none

/-- `detail::parseUnicode` (Token.h lines 272-328) at byte index `it`:
`\u` takes up to 4 hex digits, `\U` up to 8, optionally brace-delimited;
on success returns the new index and the encoded output bytes. -/
def parseUnicode (buf : List Char) (it : Nat) : Option (Nat × List Char) :=
  if getC buf it ≠ '\\' then none
  else
    let la := getC buf (it + 1)
    if ¬ (la = 'u' ∨ la = 'U') then none
    else
      let size := if la = 'u' then 4 else 8
      let clone := it + 2
      let delimited := getC buf clone = '\x7b'
      let clone := if delimited then clone + 1 else clone
      if ¬ isHexDigitB (getC buf clone) then none
      else
        let r := uniLoop buf clone 0 size
        if delimited then
          if getC buf r.1 ≠ '\x7d' then none
          else match utf8Encode r.2 with
               | none => none
               | some bs => some (r.1 + 1, bs)
        else match utf8Encode r.2 with
             | none => none
             | some bs => some (r.1, bs)

/-- The scanning loop of `stringValue(const char*, const char*)`
(Token.h lines 343-374) from byte index `it` up to `endIdx`: on a
backslash, try `parseOctal`, `parseHex`, `parseUnicode` in order, else
consume the backslash and the following byte through the escape table;
other bytes copy through.  `fuel` bounds the iterations; every step
advances `it` by at least one, so `tokenizeAll`-sized fuel
(`endIdx` itself, as used by `stringValueRange`) is exact. -/
def decodeLoop (buf : List Char) (endIdx : Nat) : Nat → Nat → List Char
  | 0, _ => []
  | fuel + 1, it =>
    if it < endIdx then
      if getC buf it = '\\' then
        match parseOctal buf it with
        | some (it', b) => b :: decodeLoop buf endIdx fuel it'
        | none =>
          match parseHex buf it with
          | some (it', b) => b :: decodeLoop buf endIdx fuel it'
          | none =>
            match parseUnicode buf it with
            | some (it', bs) => bs ++ decodeLoop buf endIdx fuel it'
            | none => escChar (getC buf (it + 1)) :: decodeLoop buf endIdx fuel (it + 2)
      else getC buf it :: decodeLoop buf endIdx fuel (it + 1)
    else []

/-- `stringValue(const char*, const char*)` (Token.h lines 332-383) over
the byte range `[b, e)`: an empty range returns the empty string at
once; otherwise the decoded bytes are produced and then the trailing
`'\0'` is written ("Ensure null termination, just in case") — and the
`std::string(buffer, output - buffer)` constructor counts that
terminator in the result's length, so it is part of the returned
value. -/
def stringValueRange (buf : List Char) (b e : Nat) : List Char :=
  if b = e then []
  else decodeLoop buf e e b ++ ['\x00']

/-- `stringValue(const Token&)` (Token.h lines 385-397): `STRING` tokens
decode the span between the quotes; `SYMBOL` tokens decode the interior
when backtick-quoted and otherwise (falling through to `default:`)
decode their raw span; every other kind decodes its raw span. -/
def stringValueTok (buf : List Char) (t : Token) : List Char :=
  match t.type with
  | .STRING => stringValueRange buf (t.begin_ + 1) (t.end_ - 1)
  | .SYMBOL =>
    if getC buf t.begin_ = '`' then stringValueRange buf (t.begin_ + 1) (t.end_ - 1)
    else stringValueRange buf t.begin_ t.end_
  | _ => stringValueRange buf t.begin_ t.end_

/-- The raw span of bytes a token borrows from the source buffer. -/
def spanOf (buf : List Char) (t : Token) : List Char :=
  (buf.drop t.begin_).take (t.end_ - t.begin_)

/-- A run of the engine from `st` is clean when every produced token
begins exactly at the cursor position its scan started from and ends
within the input.  The two code paths that violate this are the
unterminated delimited run (`consumeUntil` failure, which emits an `ERR`
ending one byte past end-of-input) and the `0x`-with-no-hex-digit slip
(which stores a token beginning two bytes past the scan position). -/
def cleanB : Nat → TState → Bool
  | 0, _ => true
  | fuel + 1, st =>
    if (tokenize st).2.2 then
      decide ((tokenize st).1.begin_ = st.offset ∧ (tokenize st).1.end_ ≤ st.buf.length)
        && cleanB fuel (tokenize st).2.1
    else true

/-- Cleanliness of the full tokenize-all run over a buffer. -/
def cleanRun (buf : List Char) : Bool :=
  cleanB (buf.length + 1) ⟨buf, 0, []⟩

/-- The plain value of the `k` octal digits starting at byte index `p`
(most significant first), used to state what `parseOctal` computes. -/
def octVal (buf : List Char) (p : Nat) : Nat → Nat
  | 0 => 0
  | k + 1 => 8 * octVal buf p k + ((getC buf (p + k)).toNat - '0'.toNat)

theorem getC_zero (l : List Char) : getC l 0 = headC l := by
  cases l <;> rfl

theorem countDigits_pos {l : List Char} (h : isDigitB (headC l) = true) :
    1 ≤ countDigits l := by
  cases l with
  | nil => simp [headC, isDigitB] at h
  | cons c r => simp only [countDigits, headC, List.headD] at h ⊢; simp [h]

theorem countDigits_head_not {l : List Char} (h : isDigitB (headC l) = false) :
    countDigits l = 0 := by
  cases l with
  | nil => rfl
  | cons c r => simp only [countDigits, headC, List.headD] at h ⊢; simp [h]

theorem numDot_ge (rest : List Char) : countDigits rest ≤ numDot rest := by
  simp only [numDot]
  split <;> omega

theorem numL_ge (rest : List Char) (d : Nat) : d ≤ numL rest d := by
  simp only [numL]
  split <;> omega

theorem numExp_ge (rest : List Char) (d1 : Nat) : d1 + 1 ≤ (numExp rest d1).2 := by
  simp only [numExp]
  split <;> split <;> refine le_trans ?_ (numL_ge _ _) <;> omega

theorem numDot_pos {rest : List Char} (h : isStartOfNumberB rest = true) :
    1 ≤ numDot rest := by
  unfold isStartOfNumberB at h
  split at h
  · exact le_trans (countDigits_pos (by assumption)) (numDot_ge rest)
  · split at h
    · rename_i hnd hdot
      have hz : countDigits rest = 0 := countDigits_head_not (by simpa using hnd)
      simp only [numDot, hz, getC_zero, hdot]
      simp
    · exact absurd h (by simp)

theorem numTail_pos {rest : List Char} (h : isStartOfNumberB rest = true) :
    1 ≤ (numTail rest).2 := by
  have hd := numDot_pos h
  simp only [numTail]
  split
  · have := numExp_ge rest (numDot rest); omega
  · have := numL_ge rest (numDot rest); dsimp only; omega

theorem hexScan_tok_len {rest : List Char} {s : Bool} {l : Nat}
    (h : hexScan rest = .tok s l) : 2 ≤ l := by
  unfold hexScan at h
  split at h
  · exact absurd h (by simp)
  · split at h
    · exact absurd h (by simp)
    · split at h
      · exact absurd h (by simp)
      · injection h with h1 h2
        omega

set_option maxHeartbeats 1000000 in
theorem scan_progress {rest : List Char} {stack : List TokenType} {skip : Nat}
    {ty : TokenType} {len : Nat} {stk : List TokenType}
    (h : scan rest stack = (skip, ty, len, stk)) : 1 ≤ skip + len := by
  unfold scan at h
  cases hd : dispatchOf (headC rest) <;> rw [hd] at h <;> clear hd <;>
    repeat' split at h
  all_goals
    injection h with h1 h2
    injection h2 with h2 h3
    injection h3 with h3 h4
    subst h1
    subst h3
  all_goals
    first
      | omega
      | (have hnum := numTail_pos ‹isStartOfNumberB rest = true›; omega)
      | (have h5 : 2 ≤ _ := hexScan_tok_len (by assumption); omega)

theorem scan_progress_le (rest : List Char) (stack : List TokenType) :
    1 ≤ (scan rest stack).1 + (scan rest stack).2.2.1 :=
  @scan_progress rest stack _ _ _ _ rfl

theorem tokenize_false_of_end {st : TState} (h : st.buf.length ≤ st.offset) :
    tokenize st = (⟨0, 0, .END⟩, st, false) := by
  simp [tokenize, h]

theorem tokenize_true_spec {st : TState} {t : Token} {st' : TState}
    (h : tokenize st = (t, st', true)) :
    st'.buf = st.buf ∧ st.offset < st.buf.length ∧ st.offset < st'.offset ∧
      t.end_ = st'.offset ∧ st.offset ≤ t.begin_ ∧ t.begin_ ≤ t.end_ := by
  unfold tokenize at h
  split at h
  · injection h with h1 h2
    injection h2 with h2 h3
    exact Bool.noConfusion h3
  · rename_i hlt
    have hp := scan_progress_le (st.buf.drop st.offset) st.stack
    dsimp only at h
    injection h with h1 h2
    injection h2 with h2 h3
    subst h1
    subst h2
    refine ⟨rfl, by omega, by dsimp only; omega, rfl, by dsimp only; omega,
      by dsimp only; omega⟩

theorem tokenizeLoop_succ (fuel : Nat) (st : TState) :
    tokenizeLoop (fuel + 1) st =
      if (tokenize st).2.2 then (tokenize st).1 :: tokenizeLoop fuel (tokenize st).2.1
      else [] := rfl

theorem cleanB_succ (fuel : Nat) (st : TState) :
    cleanB (fuel + 1) st =
      if (tokenize st).2.2 then
        decide ((tokenize st).1.begin_ = st.offset ∧ (tokenize st).1.end_ ≤ st.buf.length)
          && cleanB fuel (tokenize st).2.1
      else true := rfl

theorem tokenizeLoop_fuel_stable :
    ∀ (fuel : Nat) (st : TState), st.buf.length + 1 ≤ st.offset + fuel →
      tokenizeLoop (fuel + 1) st = tokenizeLoop fuel st := by
  intro fuel
  induction fuel with
  | zero =>
    intro st hf
    rw [tokenizeLoop_succ 0 st, tokenize_false_of_end (show st.buf.length ≤ st.offset by omega)]
    rfl
  | succ fuel ih =>
    intro st hf
    rcases htk : tokenize st with ⟨t, st', b⟩
    cases b with
    | false =>
      rw [tokenizeLoop_succ (fuel + 1) st, tokenizeLoop_succ fuel st, htk]
      rfl
    | true =>
      obtain ⟨hbuf, _, hoff, _, _, _⟩ := tokenize_true_spec htk
      rw [tokenizeLoop_succ (fuel + 1) st, tokenizeLoop_succ fuel st, htk]
      show t :: tokenizeLoop (fuel + 1) st' = t :: tokenizeLoop fuel st'
      rw [ih st' (by rw [hbuf]; omega)]

theorem drop_take_append_drop (l : List Char) (a b : Nat) (hab : a ≤ b) :
    (l.drop a).take (b - a) ++ l.drop b = l.drop a := by
  have hb : l.drop b = (l.drop a).drop (b - a) := by
    rw [List.drop_drop]
    congr 1
    omega
  rw [hb, List.take_append_drop]

theorem cleanB_join :
    ∀ (fuel : Nat) (st : TState), cleanB fuel st = true →
      st.buf.length ≤ st.offset + fuel →
      ((tokenizeLoop fuel st).map (spanOf st.buf)).flatten = st.buf.drop st.offset := by
  intro fuel
  induction fuel with
  | zero =>
    intro st _ hf
    simp [tokenizeLoop, List.drop_eq_nil_of_le (show st.buf.length ≤ st.offset by omega)]
  | succ fuel ih =>
    intro st hc hf
    rcases htk : tokenize st with ⟨t, st', b⟩
    cases b with
    | false =>
      have hend : st.buf.length ≤ st.offset := by
        by_contra hlt
        unfold tokenize at htk
        rw [if_neg (by omega)] at htk
        dsimp only at htk
        injection htk with h1 h2
        injection h2 with h2 h3
        exact Bool.noConfusion h3
      rw [tokenizeLoop_succ fuel st, htk]
      show (([] : List Token).map (spanOf st.buf)).flatten = st.buf.drop st.offset
      simp [List.drop_eq_nil_of_le hend]
    | true =>
      obtain ⟨hbuf, _, hoff, hend, _, _⟩ := tokenize_true_spec htk
      rw [cleanB_succ fuel st, htk] at hc
      have hc2 : (decide (t.begin_ = st.offset ∧ t.end_ ≤ st.buf.length)
          && cleanB fuel st') = true := hc
      simp only [Bool.and_eq_true, decide_eq_true_eq] at hc2
      obtain ⟨⟨hbeg, hle⟩, hc'⟩ := hc2
      rw [tokenizeLoop_succ fuel st, htk]
      show ((t :: tokenizeLoop fuel st').map (spanOf st.buf)).flatten = st.buf.drop st.offset
      simp only [List.map_cons, List.flatten_cons]
      have hIH := ih st' hc' (by rw [hbuf]; omega)
      rw [hbuf] at hIH
      rw [hIH, spanOf, hbeg, hend]
      exact drop_take_append_drop st.buf st.offset st'.offset (by omega)

theorem cleanB_ends :
    ∀ (fuel : Nat) (st : TState), cleanB fuel st = true →
      ∀ t ∈ tokenizeLoop fuel st, t.end_ ≤ st.buf.length := by
  intro fuel
  induction fuel with
  | zero => intro st _ t ht; simp [tokenizeLoop] at ht
  | succ fuel ih =>
    intro st hc t ht
    rcases htk : tokenize st with ⟨t0, st', b⟩
    cases b with
    | false =>
      rw [tokenizeLoop_succ fuel st, htk] at ht
      have ht2 : t ∈ ([] : List Token) := ht
      simp at ht2
    | true =>
      obtain ⟨hbuf, _, _, _, _, _⟩ := tokenize_true_spec htk
      rw [cleanB_succ fuel st, htk] at hc
      have hc2 : (decide (t0.begin_ = st.offset ∧ t0.end_ ≤ st.buf.length)
          && cleanB fuel st') = true := hc
      simp only [Bool.and_eq_true, decide_eq_true_eq] at hc2
      obtain ⟨⟨_, hle⟩, hc'⟩ := hc2
      rw [tokenizeLoop_succ fuel st, htk] at ht
      have ht2 : t ∈ t0 :: tokenizeLoop fuel st' := ht
      rcases List.mem_cons.mp ht2 with rfl | ht3
      · exact hle
      · have := ih st' hc' t ht3
        rwa [hbuf] at this

theorem isOct_toNat {c : Char} (h : isOctDigitB c = true) :
    48 ≤ c.toNat ∧ c.toNat ≤ 55 := by
  simpa [isOctDigitB] using h

theorem getC_cons_succ (c : Char) (l : List Char) (n : Nat) :
    getC (c :: l) (n + 1) = getC l n := rfl

theorem getC_cons_one (c : Char) (l : List Char) :
    getC (c :: l) 1 = headC l := by
  rw [show (1 : Nat) = 0 + 1 from rfl, getC_cons_succ, getC_zero]

theorem getC_drop (l : List Char) (n m : Nat) :
    getC (l.drop n) m = getC l (n + m) := by
  unfold getC
  rw [List.getD_eq_getElem?_getD, List.getD_eq_getElem?_getD, List.getElem?_drop]

theorem headC_drop (l : List Char) (n : Nat) : headC (l.drop n) = getC l n := by
  rw [← getC_zero, getC_drop, Nat.add_zero]

theorem consumeUntilLoop_false_cons (ch c : Char) (rest : List Char) :
    consumeUntilLoop ch false (c :: rest) =
      if headC rest = ch then (true, 1)
      else ((consumeUntilLoop ch false rest).1, (consumeUntilLoop ch false rest).2 + 1) := by
  conv_lhs => unfold consumeUntilLoop
  cases rest with
  | nil => simp [headC]
  | cons c2 rest2 => by_cases h2 : c2 = '\\' <;> simp [headC, h2]

/-- With escape handling off, the `consumeUntil` lookahead succeeds
exactly when the delimiter occurs strictly after the opening byte. -/
theorem consumeUntilLoop_false_iff {ch : Char} (hch : ch ≠ '\x00') (l : List Char) :
    (consumeUntilLoop ch false l).1 = true ↔
      ∃ j, 0 < j ∧ j < l.length ∧ getC l j = ch := by
  induction l with
  | nil =>
    constructor
    · intro h
      exact absurd h (by simp [consumeUntilLoop])
    · rintro ⟨j, hj0, hjl, -⟩
      simp at hjl
  | cons c rest ih =>
    rw [consumeUntilLoop_false_cons]
    by_cases hh : headC rest = ch
    · rw [if_pos hh]
      have hne : rest ≠ [] := by
        intro h0
        rw [h0] at hh
        exact hch (by simpa [headC] using hh.symm)
      constructor
      · intro _
        refine ⟨1, by omega, ?_, ?_⟩
        · cases rest with
          | nil => exact absurd rfl hne
          | cons r0 rs => simp
        · rw [getC_cons_one]
          exact hh
      · intro _
        rfl
    · rw [if_neg hh]
      dsimp only
      rw [ih]
      constructor
      · rintro ⟨j, hj0, hjl, hjc⟩
        refine ⟨j + 1, by omega, by simpa using hjl, ?_⟩
        rw [getC_cons_succ]
        exact hjc
      · rintro ⟨j, hj0, hjl, hjc⟩
        match j, hj0 with
        | 1, _ =>
          rw [getC_cons_one] at hjc
          exact absurd hjc hh
        | j'' + 2, _ =>
          refine ⟨j'' + 1, by omega, by simp at hjl; omega, ?_⟩
          rw [show j'' + 2 = (j'' + 1) + 1 from rfl, getC_cons_succ] at hjc
          exact hjc

/-- With the lookahead at a `#`, `scan` takes the comment branch. -/
theorem scan_hash {rest : List Char} (stack : List TokenType)
    (h : headC rest = '#') :
    scan rest stack =
      (0, if (consumeUntilLoop '\n' false rest).1 then .COMMENT else .ERR,
       (consumeUntilLoop '\n' false rest).2 + 1, stack) := by
  have hd : dispatchOf (headC rest) = .hashC := by rw [h]; rfl
  unfold scan
  rw [hd]

/-- C1 (amended): token spans are contiguous and lossless whenever the run
is clean — every token begins at the position its scan started from and
ends within the input.  Under that proviso, concatenating the raw spans of
all tokens of `tokenizeAll` reproduces the buffer exactly (no byte skipped
or covered twice) and no span extends past end-of-input.  The proviso
fails only on an unterminated delimited run (whose `ERR` span ends one
byte past end-of-input) and on a `0x`/`0X` prefix with no hex digit after
it (where the stored token skips those two bytes). -/
theorem c1_spans_cover (buf : List Char) (h : cleanRun buf = true) :
    ((tokenizeAll buf).map (spanOf buf)).flatten = buf ∧
    ∀ t ∈ tokenizeAll buf, t.end_ ≤ buf.length := by
  unfold tokenizeAll
  split
  · rename_i h0
    have hb : buf = [] := List.length_eq_zero.mp h0
    subst hb
    exact ⟨rfl, by intro t ht; simp at ht⟩
  · unfold cleanRun at h
    refine ⟨?_, ?_⟩
    · have hj := cleanB_join (buf.length + 1) ⟨buf, 0, []⟩ h (by dsimp only; omega)
      simpa using hj
    · intro t ht
      exact cleanB_ends (buf.length + 1) ⟨buf, 0, []⟩ h t ht

/-- C1 (counterexample): on input `0x` the concatenated spans do not
reproduce the buffer (the two bytes `0x` are skipped by the zero-length
`NUMBER` token); on the 1-byte input `"` the single `ERR` token ends at
offset 2, one byte past end-of-input. -/
theorem c1_counterexample :
    ((tokenizeAll ("0x".toList)).map (spanOf ("0x".toList))).flatten ≠ "0x".toList ∧
    (∃ t ∈ tokenizeAll ("\"".toList), ("\"".toList).length < t.end_) := by decide

/-- C1 (witness): a concrete clean input on which the amended coverage
theorem applies and the spans concatenate back to the buffer. -/
theorem c1_spans_cover_witness :
    cleanRun ("x <- 1 # hi\n".toList) = true ∧
    ((tokenizeAll ("x <- 1 # hi\n".toList)).map
      (spanOf ("x <- 1 # hi\n".toList))).flatten = "x <- 1 # hi\n".toList :=
  ⟨by decide, (c1_spans_cover ("x <- 1 # hi\n".toList) (by decide)).1⟩

/-- C2: contrary to the claim, `stringValue` does not return exactly the
logical string value — the trailing `'\0'` it writes is counted by the
`std::string(buffer, output - buffer)` constructor, so the `STRING` token
over `"a\nb"` decodes to the 4 bytes `a`, LF, `b`, NUL (not 3), and the
one over `'\x41'` decodes to the 2 bytes `A`, NUL (not 1). -/
theorem c2_nul_terminator_in_value :
    tokenizeAll ("\"a\\nb\"".toList) = [⟨0, 6, TokenType.STRING⟩] ∧
    stringValueTok ("\"a\\nb\"".toList) ⟨0, 6, TokenType.STRING⟩ = ['a', '\n', 'b', '\x00'] ∧
    (stringValueTok ("\"a\\nb\"".toList) ⟨0, 6, TokenType.STRING⟩).length = 4 ∧
    tokenizeAll ("'\\x41'".toList) = [⟨0, 6, TokenType.STRING⟩] ∧
    stringValueTok ("'\\x41'".toList) ⟨0, 6, TokenType.STRING⟩ = ['A', '\x00'] := by decide

/-- C3: contrary to the claim, the engine can produce a zero-length token
other than `END`: on input `0x`, `consumeHexadecimalNumber` consumes both
bytes as an `ERR` token but returns `false`, and `consumeNumber` then
overwrites that token with a `NUMBER` token of size 0 at offset 2.  (The
forward-progress half of the claim does hold: the cursor still moved from
0 to 2.) -/
theorem c3_zero_size_number :
    tokenizeAll ("0x".toList) = [⟨2, 2, TokenType.NUMBER⟩] ∧
    (Token.mk 2 2 TokenType.NUMBER).size = 0 ∧
    TokenType.NUMBER ≠ TokenType.END := by decide

/-- C4 (amended): when the byte at the cursor is `#`, the token produced is
`COMMENT` exactly when a newline occurs strictly later in the input;
otherwise — end-of-input reached before any newline — the token is `ERR`,
so the unterminated-at-EOF comment is an error, not a success. -/
theorem c4_comment_run (buf : List Char) (stack : List TokenType) (o : Nat)
    (ho : o < buf.length) (hc : getC buf o = '#') :
    (((tokenize ⟨buf, o, stack⟩).1.type = TokenType.COMMENT) ↔
      ∃ j, o < j ∧ j < buf.length ∧ getC buf j = '\n') ∧
    ((tokenize ⟨buf, o, stack⟩).1.type = TokenType.COMMENT ∨
      (tokenize ⟨buf, o, stack⟩).1.type = TokenType.ERR) := by
  have hhead : headC (buf.drop o) = '#' := by rw [headC_drop]; exact hc
  have hty : (tokenize ⟨buf, o, stack⟩).1.type =
      (if (consumeUntilLoop '\n' false (buf.drop o)).1 then TokenType.COMMENT
       else TokenType.ERR) := by
    unfold tokenize
    dsimp only
    rw [if_neg (by omega), scan_hash stack hhead]
  have hmap : (∃ j, 0 < j ∧ j < (buf.drop o).length ∧ getC (buf.drop o) j = '\n') ↔
      (∃ j, o < j ∧ j < buf.length ∧ getC buf j = '\n') := by
    constructor
    · rintro ⟨j, hj0, hjl, hjc⟩
      refine ⟨o + j, by omega, ?_, ?_⟩
      · rw [List.length_drop] at hjl; omega
      · rw [getC_drop] at hjc; exact hjc
    · rintro ⟨j, hj0, hjl, hjc⟩
      refine ⟨j - o, by omega, ?_, ?_⟩
      · rw [List.length_drop]; omega
      · rw [getC_drop, show o + (j - o) = j by omega]; exact hjc
  have hiff := consumeUntilLoop_false_iff (show ('\n' : Char) ≠ '\x00' by decide) (buf.drop o)
  constructor
  · rw [hty]
    by_cases hs : (consumeUntilLoop '\n' false (buf.drop o)).1 = true
    · rw [if_pos hs]
      exact iff_of_true rfl (hmap.mp (hiff.mp hs))
    · rw [if_neg hs]
      constructor
      · intro habs
        exact absurd habs (by decide)
      · intro hex
        exact absurd (hiff.mpr (hmap.mpr hex)) hs
  · rw [hty]
    by_cases hs : (consumeUntilLoop '\n' false (buf.drop o)).1 = true
    · rw [if_pos hs]; exact Or.inl rfl
    · rw [if_neg hs]; exact Or.inr rfl

/-- C4 (counterexample): on the 1-byte input `#` (a comment unterminated at
end-of-input) the token produced is `ERR`, not `COMMENT`, and its span even
extends one byte past end-of-input. -/
theorem c4_counterexample :
    tokenizeAll ("#".toList) = [⟨0, 2, TokenType.ERR⟩] ∧
    ∀ t ∈ tokenizeAll ("#".toList), t.type ≠ TokenType.COMMENT := by decide

/-- C4 (witness): the amended comment theorem applied to `#a` followed by a
newline, where the run succeeds as `COMMENT`. -/
theorem c4_comment_run_witness :
    0 < ("#a\n".toList).length ∧ getC ("#a\n".toList) 0 = '#' ∧
    ((tokenize ⟨"#a\n".toList, 0, []⟩).1.type = TokenType.COMMENT ↔
      ∃ j, 0 < j ∧ j < ("#a\n".toList).length ∧ getC ("#a\n".toList) j = '\n') :=
  ⟨by decide, by decide, (c4_comment_run ("#a\n".toList) [] 0 (by decide) (by decide)).1⟩

/-- C5: the numeric-literal vectors — `0x1A` is one 4-byte `NUMBER`; `0x1G`
is one 4-byte `ERR` covering all of `0x1G`; `.5` is one 2-byte `NUMBER`;
`100.` is one 4-byte `NUMBER`; `1e` is one 2-byte `ERR` covering both
bytes; `1e10` is one 4-byte `NUMBER`.  In each case the full run is
consumed and only the kind differs. -/
theorem c5_number_vectors :
    tokenizeAll ("0x1A".toList) = [⟨0, 4, TokenType.NUMBER⟩] ∧
    tokenizeAll ("0x1G".toList) = [⟨0, 4, TokenType.ERR⟩] ∧
    tokenizeAll (".5".toList) = [⟨0, 2, TokenType.NUMBER⟩] ∧
    tokenizeAll ("100.".toList) = [⟨0, 4, TokenType.NUMBER⟩] ∧
    tokenizeAll ("1e".toList) = [⟨0, 2, TokenType.ERR⟩] ∧
    tokenizeAll ("1e10".toList) = [⟨0, 4, TokenType.NUMBER⟩] := by decide

/-- C6: bracket disambiguation through the stack — `[[a]]` is
`LDBRACKET SYMBOL RDBRACKET`; `[a]` is `LBRACKET SYMBOL RBRACKET`; in
`[[a]` the lone trailing `]` is a 1-byte `ERR`; a bare `]` with an empty
stack is a 1-byte `ERR` token rather than a failure. -/
theorem c6_bracket_vectors :
    tokenizeAll ("[[a]]".toList) =
      [⟨0, 2, TokenType.LDBRACKET⟩, ⟨2, 3, TokenType.SYMBOL⟩,
       ⟨3, 5, TokenType.RDBRACKET⟩] ∧
    tokenizeAll ("[a]".toList) =
      [⟨0, 1, TokenType.LBRACKET⟩, ⟨1, 2, TokenType.SYMBOL⟩,
       ⟨2, 3, TokenType.RBRACKET⟩] ∧
    tokenizeAll ("[[a]".toList) =
      [⟨0, 2, TokenType.LDBRACKET⟩, ⟨2, 3, TokenType.SYMBOL⟩,
       ⟨3, 4, TokenType.ERR⟩] ∧
    tokenizeAll ("]".toList) = [⟨0, 1, TokenType.ERR⟩] := by decide

/-- C7: contrary to the claim, `parseHex` does not consume hex digits
greedily until a non-hex byte — its loop breaks as soon as `hexValue`
returns 0, so the digit `0` ends the escape early: decoding the interior
`\x40` yields the byte `0x04` followed by a literal `0` (and the appended
NUL), not the single byte `0x40`.  `\x41` (no zero digit) does decode to
`A`, as the trace on the second input shows. -/
theorem c7_hex_zero_digit_break :
    tokenizeAll ("'\\x40'".toList) = [⟨0, 6, TokenType.STRING⟩] ∧
    stringValueTok ("'\\x40'".toList) ⟨0, 6, TokenType.STRING⟩ = ['\x04', '0', '\x00'] ∧
    parseHex ("'\\x40'".toList) 1 = some (4, '\x04') ∧
    parseHex ("'\\x41'".toList) 1 = some (5, 'A') := by decide

/-- C8: `peek` never mutates the engine: the state component it returns is
the original state, any sequence of peeks folded over the state leaves it
unchanged, and `tokenize` afterwards sees exactly the state it would have
seen with no prior peeks. -/
theorem c8_peek_preserves_state (st : TState) (ks : List Nat) :
    ks.foldl (fun s k => (peek s k).2) st = st ∧
    tokenize (ks.foldl (fun s k => (peek s k).2) st) = tokenize st ∧
    ∀ k, (peek st k).2 = st := by
  have hfold : ks.foldl (fun s k => (peek s k).2) st = st := by
    induction ks with
    | nil => rfl
    | cons k ks ih => exact ih
  exact ⟨hfold, by rw [hfold], fun k => rfl⟩

/-- C9: an octal escape of `k` digits (1 ≤ k ≤ 3, maximal) is parsed by
`parseOctal` into exactly one byte whose value is the octal number modulo
256, consuming the backslash and the `k` digits and no more. -/
theorem c9_octal_escape (buf : List Char) (i k : Nat)
    (hbs : getC buf i = '\\') (hk1 : 1 ≤ k) (hk3 : k ≤ 3)
    (hdig : ∀ m, m < k → isOctDigitB (getC buf (i + 1 + m)) = true)
    (hstop : k < 3 → isOctDigitB (getC buf (i + 1 + k)) = false) :
    parseOctal buf i = some (i + 1 + k, Char.ofNat (octVal buf (i + 1) k % 256)) := by
  have h1 := hdig 0 (by omega)
  rw [Nat.add_zero] at h1
  have hb1 := isOct_toNat h1
  have hz : ('0' : Char).toNat = 48 := rfl
  interval_cases k
  · have hs := hstop (by omega)
    simp [parseOctal, hbs, h1, hs, octVal]
  · have h2 := hdig 1 (by omega)
    have hb2 := isOct_toNat h2
    have hs := hstop (by omega)
    simp [parseOctal, hbs, h1, h2, hs, octVal]
    congr 1
    omega
  · have h2 := hdig 1 (by omega)
    have hb2 := isOct_toNat h2
    have h3 := hdig 2 (by omega)
    have hb3 := isOct_toNat h3
    simp [parseOctal, hbs, h1, h2, h3, octVal]
    congr 1
    omega

/-- C9 (witness): `\777` (octal 511) parses to the single byte 0xFF. -/
theorem c9_octal_escape_witness :
    parseOctal ("\\777".toList) 0 = some (4, '\xFF') := by
  have h := c9_octal_escape ("\\777".toList) 0 3 (by decide) (by decide) (by decide)
    (by decide) (fun h3 => absurd h3 (by decide))
  exact h.trans (by decide)

/-- C10: `peek(0)` runs the lookahead loop zero times, so it returns the
default-initialized `END` token (null span) and leaves the engine state
untouched, for every state. -/
theorem c10_peek_zero (st : TState) :
    peek st 0 = (⟨0, 0, TokenType.END⟩, st) ∧ (peek st 0).1.type = TokenType.END :=
  ⟨rfl, rfl⟩

end Sourcetools
